import Mathlib

/-!
A verification development for the Markdown-cleanup core of the
docling-serve repository (`docling_serve/markdown_cleanup.py`).

Python strings are modelled as `List Char` (a Python `str` is a sequence of
Unicode code points, matching Lean's `Char`).  Fallible code — regular
expression compilation inside `_remove_pattern_matches` — is modelled with
`Except`.  The fixed regular expressions of the module
(`_HEADING_PATTERN`, `_NUMERIC_HEADING_PATTERN`, `_DOMAIN_HEADING_PATTERN`,
and the two inline patterns of `_is_structure_line`) are translated into
executable Lean functions whose doc comments record the translation;
`\d` is modelled as the ASCII digits and `str.lower` as ASCII lowering,
which agree with Python on every character those patterns can capture.
Caller-supplied regular expressions from `remove_patterns` are modelled
abstractly by their compilation outcome (`Pattern`), since the pipeline
only ever uses them through `re.compile` and `compiled.search`.
-/

/-- A Python string: a sequence of Unicode code points. -/
abbrev PyStr := List Char

/-- Convenience: view a Lean string literal as a `PyStr`. -/
def pyStr (s : String) : PyStr := s.data

/-- The characters Python's `str.strip()` removes and `\s` matches
(Unicode whitespace per `str.isspace`). -/
def pyIsSpace (c : Char) : Bool :=
  c = ' ' || c = '\t' || c = '\n' || c = '\x0b' || c = '\x0c' || c = '\r' ||
  (0x1c ≤ c.val && c.val ≤ 0x1f) || c = '\u0085' || c = ' ' ||
  c = ' ' || (0x2000 ≤ c.val && c.val ≤ 0x200a) || c = ' ' ||
  c = ' ' || c = ' ' || c = ' ' || c = '　'

/-- The line-boundary characters of Python's universal-newlines
`str.splitlines`: `\n`, `\r` (also as part of `\r\n`), `\v`, `\f`,
`\x1c`, `\x1d`, `\x1e`, `\x85`, ` `, ` `. -/
def isLineBoundary (c : Char) : Bool :=
  c = '\n' || c = '\r' || c = '\x0b' || c = '\x0c' ||
  c = '\x1c' || c = '\x1d' || c = '\x1e' || c = '\u0085' ||
  c = ' ' || c = ' '

/-- Python `str.lstrip()`. -/
def pyLstrip (s : PyStr) : PyStr := s.dropWhile pyIsSpace

/-- Python `str.rstrip()`. -/
def pyRstrip (s : PyStr) : PyStr := (s.reverse.dropWhile pyIsSpace).reverse

/-- Python `str.strip()`. -/
def pyStrip (s : PyStr) : PyStr := pyRstrip (pyLstrip s)

/-- Recursive worker for `pySplitlines`: `cur` is the (reversed) current
line.  A `\r` immediately followed by `\n` counts as one boundary. -/
def pySplitlinesAux (cur : PyStr) : PyStr → List PyStr
  | [] => [cur.reverse]
  | c :: rest =>
    if isLineBoundary c then
      match rest with
      | [] => [cur.reverse]
      | r2 :: rest2 =>
        if c = '\r' ∧ r2 = '\n' then
          cur.reverse :: (if rest2.isEmpty then [] else pySplitlinesAux [] rest2)
        else
          cur.reverse :: pySplitlinesAux [] (r2 :: rest2)
    else
      pySplitlinesAux (c :: cur) rest

/-- Python `str.splitlines()` with universal newlines: a trailing boundary
does not produce a final empty line, and `splitlines("") = []`. -/
def pySplitlines (s : PyStr) : List PyStr :=
  if s.isEmpty then [] else pySplitlinesAux [] s

/-- Python `"\n".join(lines)`. -/
def joinLines : List PyStr → PyStr
  | [] => []
  | [l] => l
  | l :: l' :: ls => l ++ '\n' :: joinLines (l' :: ls)

/-- Python `" ".join(parts)`, used when flushing a reflow paragraph. -/
def joinSpace : List PyStr → PyStr
  | [] => []
  | [p] => p
  | p :: p' :: ps => p ++ ' ' :: joinSpace (p' :: ps)

/-- Length of the run of `#` characters at the start of a string. -/
def hashCount : PyStr → Nat
  | '#' :: rest => hashCount rest + 1
  | _ => 0

/-- Models `_HEADING_PATTERN.match`, i.e. `^(#{1,6})\s*(.+?)\s*$` applied to an
already stripped string (both call sites first apply `str.strip`).
Returns the heading level (group 1's length) and group 2.  The regex
backtracks on a string consisting only of `#`: up to six `#` are taken
greedily, but if nothing is left for `(.+?)` the last `#` taken is
released and becomes the text, so `"##"` is a level-1 heading with text
`"#"`; a single `"#"` does not match.  Because the input is stripped,
group 2 is exactly the rest of the string after the `#` run (capped at
six) with leading whitespace removed. -/
def headingMatch (s : PyStr) : Option (Nat × PyStr) :=
  let k := hashCount s
  if k = 0 then none
  else
    let lev := min k 6
    if lev < s.length then some (lev, pyLstrip (s.drop lev))
    else if 2 ≤ lev then some (lev - 1, ['#'])
    else none

/-- Models `_NUMERIC_HEADING_PATTERN`, i.e. `^(\d+)([.)])?$` (with `$` and no
newlines in a line this is full-match semantics, so `.match` at line 130
of the source and `.fullmatch` at line 137 are the same test).  Returns
the digit run (group 1) and the optional trailing `.` or `)` (group 2).
`\d` is modelled as the ASCII digits. -/
def numericMatch (t : PyStr) : Option (PyStr × Option Char) :=
  let ds := t.takeWhile Char.isDigit
  if ds.isEmpty then none
  else
    match t.drop ds.length with
    | [] => some (ds, none)
    | [c] => if c = '.' ∨ c = ')' then some (ds, some c) else none
    | _ => none

/-- ASCII letters and digits — the characters `[A-Za-z0-9]` matches. -/
def isAlnumAscii (c : Char) : Bool :=
  c.isDigit || ('a' ≤ c && c ≤ 'z') || ('A' ≤ c && c ≤ 'Z')

/-- The characters `[A-Za-z0-9-]` matches. -/
def isAlnumHyphen (c : Char) : Bool := isAlnumAscii c || c = '-'

/-- The first dotted-name label of `_DOMAIN_HEADING_PATTERN`:
`[A-Za-z0-9](?:[A-Za-z0-9-]*[A-Za-z0-9])?` — nonempty, alphanumeric at
both ends, hyphens allowed inside. -/
def firstLabelOk : PyStr → Bool
  | [] => false
  | c :: rest =>
    isAlnumAscii c && rest.all isAlnumHyphen &&
      (match (c :: rest).getLast? with
       | some d => isAlnumAscii d
       | none => false)

/-- A later dotted-name label: `[A-Za-z0-9-]+`. -/
def laterLabelOk (p : PyStr) : Bool := !p.isEmpty && p.all isAlnumHyphen

/-- Models `_DOMAIN_HEADING_PATTERN.match` on an already stripped string:
`^(#{1,6})\s*(label(\.label2)+)\s*$`.  Since labels cannot contain a dot,
the dotted-name part matches the remainder exactly when splitting it on
`.` yields at least two pieces, the first shaped like `firstLabelOk` and
the rest like `laterLabelOk`.  A run of seven or more `#` can never
match (after six `#` the next character is `#`, matching neither `\s`
nor `[A-Za-z0-9]`, and shorter splits strand a `#` likewise).  The
`re.IGNORECASE` flag adds nothing for this character class (modulo the
exotic Unicode case-foldings outside this model). -/
def domainMatch (s : PyStr) : Option (Nat × PyStr) :=
  let k := hashCount s
  if k = 0 || 7 ≤ k then none
  else
    let rest := pyLstrip (s.drop k)
    match rest.splitOn '.' with
    | [] => none
    | [_] => none
    | p :: ps =>
      if firstLabelOk p && ps.all laterLabelOk then some (k, rest) else none

/-- Python `str.lower` restricted to ASCII; agrees with Python on every
character `_DOMAIN_HEADING_PATTERN` can capture. -/
def pyLower (s : PyStr) : PyStr := s.map Char.toLower

/-- A caller-supplied regular expression from `remove_patterns`, modelled
by its compilation outcome: `Pattern.invalid` stands for a string that
`re.compile` rejects with `re.error`, and `Pattern.valid f` for one that
compiles, `f` being the Boolean outcome of the compiled object's
`search` on a given (stripped) line. -/
inductive Pattern where
  | invalid : Pattern
  | valid : (PyStr → Bool) → Pattern

/-- The list comprehension
`[re.compile(pattern, re.IGNORECASE) for pattern in patterns]` at line 83
of the source: raises (returns `Except.error`) at the first invalid
pattern, otherwise yields all compiled matchers. -/
def compilePatterns : List Pattern → Except Unit (List (PyStr → Bool))
  | [] => .ok []
  | .invalid :: _ => .error ()
  | .valid f :: rest => (compilePatterns rest).map (fun fs => f :: fs)

/-- Models `_remove_pattern_matches`: compile all patterns, then drop every line
whose stripped form is matched (`search`) by any of them.  Compilation
failure propagates as an exception. -/
def removePatternMatchesE (lines : List PyStr) (patterns : List Pattern) :
    Except Unit (List PyStr) :=
  match compilePatterns patterns with
  | .error e => .error e
  | .ok compiled =>
    if compiled.isEmpty then .ok lines
    else .ok (lines.filter (fun line => !compiled.any (fun f => f (pyStrip line))))

/-- Models `_iter_domain_heading_text` applied to one line: the lowercased
group 2 of `_DOMAIN_HEADING_PATTERN` matched against the stripped line. -/
def domainHeadingText (line : PyStr) : Option PyStr :=
  (domainMatch (pyStrip line)).map (fun m => pyLower m.2)

/-- Models `list(_iter_domain_heading_text(lines))`. -/
def domainHeadingTexts (lines : List PyStr) : List PyStr :=
  lines.filterMap domainHeadingText

/-- Models `_remove_repeated_domain_headings`: count domain-heading texts; if
none is repeated return the lines unchanged, otherwise drop every line
whose domain-heading text has count above one. -/
def removeRepeatedDomainHeadings (lines : List PyStr) : List PyStr :=
  let texts := domainHeadingTexts lines
  if texts.all (fun t => texts.count t ≤ 1) then lines
  else
    lines.filter (fun line =>
      match domainHeadingText line with
      | some t => texts.count t ≤ 1
      | none => true)

/-- The merged heading built at line 146 of the source:
`f"{level} {number}{separator}{space}{next_text}".rstrip()`, with
`separator` group 2 of the numeric match or `"."` when absent (the
`separator.strip()` in the source is a no-op on `"."` and `")"`), and
`space` empty when `next_text` is empty or starts with `.`, `)`, `-`
or an en-dash. -/
def mergedHeading (lev : Nat) (num : PyStr) (sepOpt : Option Char)
    (nextText : PyStr) : PyStr :=
  let sep : PyStr := match sepOpt with | some c => [c] | none => ['.']
  let sp : PyStr :=
    if nextText.isEmpty ||
        (match nextText.head? with
         | some c => c = '.' ∨ c = ')' ∨ c = '-' ∨ c = '–'
         | none => false) then []
    else [' ']
  pyRstrip (List.replicate lev '#' ++ ' ' :: (num ++ sep ++ sp ++ nextText))

/-- Models `_combine_numbered_headings`: a forward pass with one line of
lookahead; a heading whose text is purely numeric merges with an
immediately following same-level heading whose text is not purely
numeric, consuming both lines; otherwise the current line is emitted
unchanged. -/
def combineNumberedHeadings : List PyStr → List PyStr
  | [] => []
  | [l] => [l]
  | l :: l' :: rest =>
    match headingMatch (pyStrip l) with
    | none => l :: combineNumberedHeadings (l' :: rest)
    | some (lev, text) =>
      match numericMatch (pyStrip text) with
      | none => l :: combineNumberedHeadings (l' :: rest)
      | some (num, sepOpt) =>
        match headingMatch (pyStrip l') with
        | none => l :: combineNumberedHeadings (l' :: rest)
        | some (lev2, text2) =>
          if lev2 = lev then
            let nextText := pyStrip text2
            if (numericMatch nextText).isSome then
              l :: combineNumberedHeadings (l' :: rest)
            else
              mergedHeading lev num sepOpt nextText :: combineNumberedHeadings rest
          else l :: combineNumberedHeadings (l' :: rest)

/-- The bullet alternative of `_is_structure_line`'s list-item pattern
`^(?:\*|-|\+|\d+\.)\s+`: a `*`, `-` or `+` followed by whitespace. -/
def bulletThenSpace : PyStr → Bool
  | c :: d :: _ => (c = '*' ∨ c = '-' ∨ c = '+') && pyIsSpace d
  | _ => false

/-- The numbered alternative of the list-item pattern: `\d+\.` followed
by whitespace (`\d` modelled as ASCII digits). -/
def numberedThenSpace (s : PyStr) : Bool :=
  let ds := s.takeWhile Char.isDigit
  match s.drop ds.length with
  | '.' :: d :: _ => !ds.isEmpty && pyIsSpace d
  | _ => false

/-- The thematic-break pattern `^={3,}$|^-{3,}$` of `_is_structure_line`. -/
def thematicRule (s : PyStr) : Bool :=
  (3 ≤ s.length && s.all (fun c => c = '=')) ||
  (3 ≤ s.length && s.all (fun c => c = '-'))

/-- Models `_is_structure_line(stripped, raw_line)`. -/
def isStructureLine (stripped raw : PyStr) : Bool :=
  if stripped.isEmpty then false
  else if stripped.head? == some '#' || stripped.head? == some '>' then true
  else if bulletThenSpace stripped || numberedThenSpace stripped then true
  else if List.isPrefixOf (pyStr ("    ")) raw || List.isPrefixOf ['\t'] raw then true
  else if stripped.head? = some '|' && 2 ≤ stripped.count '|' then true
  else if List.isPrefixOf (pyStr ("<!--")) stripped &&
          List.isSuffixOf (pyStr ("-->")) stripped then true
  else if thematicRule stripped then true
  else false

/-- Models `flush_paragraph` of `_reflow_paragraphs`: a non-empty buffer of
stripped prose lines becomes one space-joined line. -/
def flushParagraph (par : List PyStr) : List PyStr :=
  if par.isEmpty then [] else [joinSpace par]

/-- The loop body of `_reflow_paragraphs`: `par` is the paragraph buffer
and `inCode` the fence-toggle flag.  Every emitted line goes through
`raw_line.rstrip()` first; a line whose stripped form starts with three
backticks flushes and toggles the flag; inside a fence lines are emitted
(right-stripped) without classification; structural and blank lines
flush and are emitted; prose is buffered stripped. -/
def reflowAux (par : List PyStr) (inCode : Bool) : List PyStr → List PyStr
  | [] => flushParagraph par
  | rawLine :: rest =>
    let line := pyRstrip rawLine
    let stripped := pyStrip line
    if List.isPrefixOf (pyStr ("```")) stripped then
      flushParagraph par ++ line :: reflowAux [] (!inCode) rest
    else if inCode then
      line :: reflowAux par inCode rest
    else if isStructureLine stripped rawLine then
      flushParagraph par ++ line :: reflowAux [] inCode rest
    else if stripped.isEmpty then
      flushParagraph par ++ [] :: reflowAux [] inCode rest
    else
      reflowAux (par ++ [stripped]) inCode rest

/-- Models `_reflow_paragraphs`. -/
def reflowParagraphs (lines : List PyStr) : List PyStr := reflowAux [] false lines

/-- Models `_ensure_heading_spacing`: after a line whose stripped form starts
with `#`, if the next line exists and is neither blank nor `#`-initial,
insert one empty line. -/
def ensureHeadingSpacing : List PyStr → List PyStr
  | [] => []
  | [l] => [l]
  | l :: next :: rest =>
    let tail := ensureHeadingSpacing (next :: rest)
    if (pyStrip l).head? = some '#' then
      if (pyStrip next).isEmpty || (pyStrip next).head? = some '#' then l :: tail
      else l :: [] :: tail
    else l :: tail

/-- The loop of `_squash_blank_lines`: `prevBlank` mirrors
`previous_blank` (on a skipped line it keeps its old value, which is
`true` exactly when the skip happens). -/
def squashAux (prevBlank : Bool) : List PyStr → List PyStr
  | [] => []
  | l :: rest =>
    let isBlank := (pyStrip l).isEmpty
    if isBlank && prevBlank then squashAux prevBlank rest
    else l :: squashAux isBlank rest

/-- Models `_squash_blank_lines`. -/
def squashBlankLines (lines : List PyStr) : List PyStr := squashAux false lines

/-- Models `MarkdownCleanupOptions`, a plain record exactly like the source
dataclass: construction performs no validation of `remove_patterns`. -/
structure MarkdownCleanupOptions where
  remove_patterns : List Pattern := []
  auto_remove_domain_headings : Bool := true
  combine_numbered_headings : Bool := true
  reflow_paragraphs : Bool := true

/-- The line-level body of `cleanup_markdown`: split, run the four
toggleable stages and the always-on heading spacing and blank squash,
yielding the final line sequence (or the regex-compilation error raised
by `_remove_pattern_matches`). -/
def cleanupMarkdownLines (markdown : PyStr) (options : MarkdownCleanupOptions) :
    Except Unit (List PyStr) :=
  let lines0 := pySplitlines markdown
  match (if options.remove_patterns.isEmpty then .ok lines0
         else removePatternMatchesE lines0 options.remove_patterns) with
  | .error e => .error e
  | .ok lines1 =>
    let lines2 := if options.auto_remove_domain_headings then
        removeRepeatedDomainHeadings lines1 else lines1
    let lines3 := if options.combine_numbered_headings then
        combineNumberedHeadings lines2 else lines2
    let lines4 := if options.reflow_paragraphs then
        reflowParagraphs lines3 else lines3
    .ok (squashBlankLines (ensureHeadingSpacing lines4))

/-- Models `cleanup_markdown`: empty input is returned unchanged at once;
otherwise the cleaned lines are joined with `\n`, and a single `\n` is
appended when the input ended with `\n` and the joined text is non-empty
and does not already end with `\n`. -/
def cleanup_markdown (markdown : PyStr) (options : MarkdownCleanupOptions) :
    Except Unit PyStr :=
  if markdown.isEmpty then .ok markdown
  else
    match cleanupMarkdownLines markdown options with
    | .error e => .error e
    | .ok ls =>
      let cleaned := joinLines ls
      if markdown.getLast? = some '\n' && !cleaned.isEmpty &&
          !(cleaned.getLast? = some '\n' : Bool) then
        .ok (cleaned ++ ['\n'])
      else .ok cleaned

/-- The default options value (`MarkdownCleanupOptions()`): empty
`remove_patterns`, all three Boolean toggles `true`. -/
def defaultOptions : MarkdownCleanupOptions := {}

instance : DecidableEq (Except Unit PyStr) := fun a b =>
  match a, b with
  | .ok x, .ok y => if h : x = y then .isTrue (by rw [h]) else .isFalse (by simp [h])
  | .error x, .error y =>
    match x, y with
    | (), () => .isTrue rfl
  | .ok _, .error _ => .isFalse (by simp)
  | .error _, .ok _ => .isFalse (by simp)

instance : DecidableEq (Except Unit (List PyStr)) := fun a b =>
  match a, b with
  | .ok x, .ok y => if h : x = y then .isTrue (by rw [h]) else .isFalse (by simp [h])
  | .error x, .error y =>
    match x, y with
    | (), () => .isTrue rfl
  | .ok _, .error _ => .isFalse (by simp)
  | .error _, .ok _ => .isFalse (by simp)

/-- The options value with every toggleable stage disabled: empty
`remove_patterns` and all three Boolean flags `false`. -/
def allTogglesOff : MarkdownCleanupOptions :=
  { remove_patterns := [], auto_remove_domain_headings := false,
    combine_numbered_headings := false, reflow_paragraphs := false }

/-- A line is blank when it is empty after trimming, as every stage of
the source tests it (`not line.strip()`). -/
def isBlankLine (l : PyStr) : Bool := (pyStrip l).isEmpty

/-- The fence test of `_reflow_paragraphs`: the line, right-stripped and
then stripped, starts with three backticks. -/
def isFenceLine (l : PyStr) : Bool :=
  List.isPrefixOf (pyStr ("```")) (pyStrip (pyRstrip l))

/-- Modelled from the spec wording of the heading merger (§4.4 and claim
C5), for comparison with `combineNumberedHeadings`: if the first line is
a numeric-heading of level `L` and the second a heading of the same
level whose text is not itself numeric, the merged heading is the plain
concatenation `level-marker + " " + number + separator + spacer +
next_text`, with `separator` the captured `.` or `)` (defaulting to `.`)
and `spacer` empty iff `next_text` is empty or starts with `.`, `)`,
`-`, or an en-dash; otherwise no merge happens. -/
def specMergeStep (l l' : PyStr) : Option PyStr :=
  match headingMatch (pyStrip l) with
  | none => none
  | some (lev, text) =>
    match numericMatch (pyStrip text) with
    | none => none
    | some (num, sepOpt) =>
      match headingMatch (pyStrip l') with
      | none => none
      | some (lev2, text2) =>
        if lev2 = lev ∧ (numericMatch (pyStrip text2)).isSome = false then
          let nextText := pyStrip text2
          let separator : PyStr := match sepOpt with | some c => [c] | none => ['.']
          let spacer : PyStr :=
            if nextText.isEmpty ||
                (match nextText.head? with
                 | some c => c = '.' ∨ c = ')' ∨ c = '-' ∨ c = '–'
                 | none => false) then []
            else [' ']
          some (List.replicate lev '#' ++ [' '] ++ num ++ separator ++ spacer ++ nextText)
        else none

/-- Modelled from the spec wording of the blank-line squasher (§4.7 and
claim C9), for comparison with `squashBlankLines`: walking the
pre-squash stream, a line is deleted exactly when it is blank and its
immediate predecessor in that stream is blank, so each maximal blank run
keeps exactly its first line. -/
def specSquashAfter (prev : PyStr) : List PyStr → List PyStr
  | [] => []
  | l :: rest =>
    if isBlankLine l && isBlankLine prev then specSquashAfter l rest
    else l :: specSquashAfter l rest

/-- The first line of the stream is always kept; after it,
`specSquashAfter` applies the predecessor rule. -/
def specSquash : List PyStr → List PyStr
  | [] => []
  | l :: rest => l :: specSquashAfter l rest

/-- No two adjacent lines of the list are both blank. -/
def noTwoAdjacentBlanks (ls : List PyStr) : Prop :=
  List.Chain' (fun a b => ¬(isBlankLine a = true ∧ isBlankLine b = true)) ls

/-- Every character of the line is outside the universal line-boundary
set (lines produced by `str.splitlines` have this shape). -/
def lineBoundaryFree (l : PyStr) : Prop :=
  ∀ c ∈ l, isLineBoundary c = false

/-! ## Helper lemmas -/

theorem mem_pyLstrip {c : Char} {s : PyStr} (h : c ∈ pyLstrip s) : c ∈ s :=
  (List.dropWhile_sublist _).subset h

theorem mem_pyRstrip {c : Char} {s : PyStr} (h : c ∈ pyRstrip s) : c ∈ s := by
  unfold pyRstrip at h
  rw [List.mem_reverse] at h
  exact List.mem_reverse.mp ((List.dropWhile_sublist _).subset h)

theorem mem_pyStrip {c : Char} {s : PyStr} (h : c ∈ pyStrip s) : c ∈ s :=
  mem_pyLstrip (mem_pyRstrip h)

theorem squashAux_eq_specSquashAfter (rest : List PyStr) :
    ∀ prev, squashAux (isBlankLine prev) rest = specSquashAfter prev rest := by
  induction rest with
  | nil => intro prev; rfl
  | cons l r ih =>
    intro prev
    simp only [squashAux, specSquashAfter, isBlankLine]
    by_cases hb : ((pyStrip l).isEmpty && (pyStrip prev).isEmpty) = true
    · rw [if_pos hb, if_pos hb]
      have h1 := (Bool.and_eq_true _ _).mp hb
      have := ih l
      simp only [isBlankLine] at this
      rw [← this, h1.1, h1.2]
    · rw [if_neg hb, if_neg hb]
      have := ih l
      simp only [isBlankLine] at this
      rw [this]

theorem squashBlankLines_eq_specSquash (ls : List PyStr) :
    squashBlankLines ls = specSquash ls := by
  cases ls with
  | nil => rfl
  | cons l r =>
    show squashAux false (l :: r) = l :: specSquashAfter l r
    simp only [squashAux, Bool.and_false]
    have := squashAux_eq_specSquashAfter r l
    simp only [isBlankLine] at this
    simp only [this]
    simp

theorem squashAux_true_head (rest : List PyStr) :
    ∀ s, (squashAux true rest).head? = some s → isBlankLine s = false := by
  induction rest with
  | nil => intro s h; simp [squashAux] at h
  | cons l r ih =>
    intro s h
    simp only [squashAux, Bool.and_true] at h
    cases hb : (pyStrip l).isEmpty with
    | true =>
      rw [hb] at h
      simp only [if_true] at h
      exact ih s h
    | false =>
      rw [hb] at h
      simp only [Bool.false_eq_true, if_false, List.head?_cons, Option.some.injEq] at h
      subst h
      simpa [isBlankLine] using hb

theorem chain'_squashAux (ls : List PyStr) :
    ∀ b, noTwoAdjacentBlanks (squashAux b ls) := by
  induction ls with
  | nil => intro b; simp [squashAux, noTwoAdjacentBlanks]
  | cons l r ih =>
    intro b
    simp only [squashAux]
    cases hb : ((pyStrip l).isEmpty && b) with
    | true => simp only [hb, if_true]; exact ih b
    | false =>
      simp only [hb, Bool.false_eq_true, if_false]
      have tail := ih ((pyStrip l).isEmpty)
      unfold noTwoAdjacentBlanks at tail ⊢
      rcases hsq : squashAux (pyStrip l).isEmpty r with _ | ⟨s, rest'⟩
      · simp
      · rw [hsq] at tail
        rw [List.chain'_cons]
        refine ⟨fun hc => ?_, tail⟩
        have hl : (pyStrip l).isEmpty = true := by
          simpa [isBlankLine] using hc.1
        have hs := squashAux_true_head r s (by rw [← hl, hsq]; rfl)
        rw [hs] at hc
        exact absurd hc.2 (by simp)

theorem cleanupMarkdownLines_shape (md : PyStr) (opts : MarkdownCleanupOptions)
    (ls : List PyStr) (h : cleanupMarkdownLines md opts = .ok ls) :
    ∃ xs, ls = squashBlankLines xs := by
  simp only [cleanupMarkdownLines] at h
  split at h
  · exact absurd h (by simp)
  · simp only [Except.ok.injEq] at h
    exact ⟨_, h.symm⟩

theorem compilePatterns_error_iff (ps : List Pattern) :
    compilePatterns ps = .error () ↔ Pattern.invalid ∈ ps := by
  induction ps with
  | nil => simp [compilePatterns]
  | cons p rest ih =>
    cases p with
    | invalid => simp [compilePatterns]
    | valid f =>
      simp only [compilePatterns, List.mem_cons]
      rcases h : compilePatterns rest with e | fs
      · rcases e
        rw [h] at ih
        simp only [Except.map, ih.symm]
        simp [ih.mp rfl]
      · rw [h] at ih
        simp only [Except.map]
        constructor
        · intro hc; exact absurd hc (by simp)
        · intro hc
          rcases hc with hc | hc
          · exact absurd hc (by simp)
          · exact absurd (ih.mpr hc) (by simp)

theorem cleanupMarkdownLines_error_iff (md : PyStr) (opts : MarkdownCleanupOptions) :
    cleanupMarkdownLines md opts = .error () ↔ Pattern.invalid ∈ opts.remove_patterns := by
  simp only [cleanupMarkdownLines]
  by_cases hemp : opts.remove_patterns.isEmpty = true
  · rw [if_pos hemp]
    have : opts.remove_patterns = [] := List.isEmpty_iff.mp hemp
    simp [this]
  · rw [if_neg hemp]
    simp only [removePatternMatchesE]
    rcases hc : compilePatterns opts.remove_patterns with e | fs
    · rcases e
      simp only [hc]
      constructor
      · intro _; exact (compilePatterns_error_iff _).mp hc
      · intro _; trivial
    · constructor
      · intro h
        by_cases hfs : fs.isEmpty = true
        · simp [hfs] at h
        · simp [hfs] at h
      · intro h
        exact absurd ((compilePatterns_error_iff _).mpr h) (by simp [hc])

theorem cleanup_markdown_error_iff (md : PyStr) (opts : MarkdownCleanupOptions) :
    cleanup_markdown md opts = .error () ↔
      md ≠ [] ∧ Pattern.invalid ∈ opts.remove_patterns := by
  simp only [cleanup_markdown]
  by_cases hemp : md.isEmpty = true
  · rw [if_pos hemp]
    have : md = [] := List.isEmpty_iff.mp hemp
    simp [this]
  · rw [if_neg hemp]
    have hne : md ≠ [] := by
      intro h; exact hemp (by simp [h])
    rcases hcl : cleanupMarkdownLines md opts with e | ls
    · rcases e
      simp only [ne_eq, hne, not_false_iff, true_and]
      rw [← cleanupMarkdownLines_error_iff md opts, hcl]
      simp
    · simp only [ne_eq, hne, not_false_iff, true_and]
      rw [← cleanupMarkdownLines_error_iff md opts, hcl]
      constructor
      · intro h
        split at h <;> exact absurd h (by simp)
      · intro h; exact absurd h (by simp)

theorem mem_domainHeadingTexts {line : PyStr} {t : PyStr} {lines : List PyStr}
    (hl : line ∈ lines) (h : domainHeadingText line = some t) :
    t ∈ domainHeadingTexts lines :=
  List.mem_filterMap.mpr ⟨line, hl, h⟩

/-- C6: the repeated-heading stage is exactly a filter — a line is
removed iff it is domain-shaped and its lowercased heading text occurs
more than once among the document's domain-heading texts; every
occurrence of a repeated text is removed, while texts occurring once and
non-domain-shaped lines pass through unchanged. -/
theorem c6_repeated_domain_filter :
    ∀ lines, removeRepeatedDomainHeadings lines =
      lines.filter (fun line =>
        match domainHeadingText line with
        | some t => (domainHeadingTexts lines).count t ≤ 1
        | none => true) := by
  intro lines
  unfold removeRepeatedDomainHeadings
  by_cases hall : (domainHeadingTexts lines).all
      (fun t => (domainHeadingTexts lines).count t ≤ 1) = true
  · rw [if_pos hall]
    symm
    rw [List.filter_eq_self]
    intro line hline
    rcases hd : domainHeadingText line with _ | t
    · simp
    · have ht := mem_domainHeadingTexts hline hd
      have := List.all_eq_true.mp hall t ht
      simp only [hd]
      exact this
  · rw [if_neg hall]

theorem ensureHeadingSpacing_filter_nonblank (ls : List PyStr) :
    (ensureHeadingSpacing ls).filter (fun l => !isBlankLine l) =
      ls.filter (fun l => !isBlankLine l) := by
  induction ls with
  | nil => rfl
  | cons l tail ih =>
    cases tail with
    | nil => rfl
    | cons next rest =>
      have hb : isBlankLine ([] : PyStr) = true := by decide
      simp only [ensureHeadingSpacing]
      split
      · split
        · simp only [List.filter_cons, ih]
        · simp only [List.filter_cons, ih, hb]
          simp
      · simp only [List.filter_cons, ih]

theorem mem_ensureHeadingSpacing {x : PyStr} (ls : List PyStr)
    (h : x ∈ ensureHeadingSpacing ls) : x ∈ ls ∨ x = [] := by
  induction ls with
  | nil => simp [ensureHeadingSpacing] at h
  | cons l tail ih =>
    cases tail with
    | nil =>
      simp only [ensureHeadingSpacing, List.mem_singleton] at h
      exact Or.inl (by simp [h])
    | cons next rest =>
      simp only [ensureHeadingSpacing] at h
      split at h
      · split at h
        · rcases List.mem_cons.mp h with h | h
          · exact Or.inl (by simp [h])
          · rcases ih h with h | h
            · exact Or.inl (List.mem_cons_of_mem _ h)
            · exact Or.inr h
        · rcases List.mem_cons.mp h with h | h
          · exact Or.inl (by simp [h])
          · rcases List.mem_cons.mp h with h | h
            · exact Or.inr h
            · rcases ih h with h | h
              · exact Or.inl (List.mem_cons_of_mem _ h)
              · exact Or.inr h
      · rcases List.mem_cons.mp h with h | h
        · exact Or.inl (by simp [h])
        · rcases ih h with h | h
          · exact Or.inl (List.mem_cons_of_mem _ h)
          · exact Or.inr h

theorem squashAux_filter_nonblank (ls : List PyStr) :
    ∀ b, (squashAux b ls).filter (fun l => !isBlankLine l) =
      ls.filter (fun l => !isBlankLine l) := by
  induction ls with
  | nil => intro b; rfl
  | cons l rest ih =>
    intro b
    simp only [squashAux]
    by_cases hb : ((pyStrip l).isEmpty && b) = true
    · rw [if_pos hb]
      have hl : isBlankLine l = true := by
        simpa [isBlankLine] using ((Bool.and_eq_true _ _).mp hb).1
      rw [ih b]
      simp [List.filter_cons, hl]
    · rw [if_neg hb]
      simp only [List.filter_cons]
      rw [ih]

theorem mem_squashAux {x : PyStr} (ls : List PyStr) :
    ∀ b, x ∈ squashAux b ls → x ∈ ls := by
  induction ls with
  | nil => intro b h; simp [squashAux] at h
  | cons l rest ih =>
    intro b h
    simp only [squashAux] at h
    split at h
    · exact List.mem_cons_of_mem _ (ih _ h)
    · rcases List.mem_cons.mp h with h | h
      · exact List.mem_cons.mpr (Or.inl h)
      · exact List.mem_cons_of_mem _ (ih _ h)

theorem cleanupMarkdownLines_allTogglesOff (md : PyStr) :
    cleanupMarkdownLines md allTogglesOff =
      .ok (squashBlankLines (ensureHeadingSpacing (pySplitlines md))) := by
  simp [cleanupMarkdownLines, allTogglesOff]

theorem pyRstrip_getLast_not_space {s : PyStr} {c : Char}
    (h : (pyRstrip s).getLast? = some c) : pyIsSpace c = false := by
  unfold pyRstrip at h
  rw [List.getLast?_reverse] at h
  have := List.head?_dropWhile_not pyIsSpace s.reverse
  rw [h] at this
  exact this

theorem pyRstrip_eq_self {s : PyStr} {c : Char}
    (hl : s.getLast? = some c) (hc : pyIsSpace c = false) : pyRstrip s = s := by
  unfold pyRstrip
  rw [← List.head?_reverse] at hl
  rcases hrev : s.reverse with _ | ⟨a, t⟩
  · rw [hrev] at hl; simp at hl
  · rw [hrev] at hl
    simp only [List.head?_cons, Option.some.injEq] at hl
    subst hl
    rw [List.dropWhile_cons, if_neg (by simp [hc])]
    rw [← hrev, List.reverse_reverse]

theorem getLast?_suffix_nonempty {l₁ l₂ : PyStr} (h : l₁ <:+ l₂) (hne : l₁ ≠ []) :
    l₁.getLast? = l₂.getLast? := by
  obtain ⟨t, rfl⟩ := h
  rw [List.getLast?_append]
  rcases hl : l₁.getLast? with _ | c
  · rw [List.getLast?_eq_none_iff] at hl; exact absurd hl hne
  · rfl

theorem mem_of_getLast?_eq {s : PyStr} {c : Char} (h : s.getLast? = some c) :
    c ∈ s := by
  obtain ⟨hne, heq⟩ := List.mem_getLast?_eq_getLast (x := c) (by simpa using h)
  rw [heq]
  exact List.getLast_mem hne

theorem pyLstrip_getLast_of {s : PyStr} {c : Char}
    (h : s.getLast? = some c) (hc : pyIsSpace c = false) :
    pyLstrip s ≠ [] ∧ (pyLstrip s).getLast? = some c := by
  have hne : pyLstrip s ≠ [] := by
    intro hnil
    unfold pyLstrip at hnil
    rw [List.dropWhile_eq_nil_iff] at hnil
    have := hnil c (mem_of_getLast?_eq h)
    rw [hc] at this
    exact absurd this (by simp)
  refine ⟨hne, ?_⟩
  have hsuf : pyLstrip s <:+ s := List.dropWhile_suffix _
  rw [getLast?_suffix_nonempty hsuf hne]
  exact h

theorem pyStrip_getLast_of {s : PyStr} {c : Char}
    (h : s.getLast? = some c) (hc : pyIsSpace c = false) :
    pyStrip s ≠ [] ∧ (pyStrip s).getLast? = some c := by
  obtain ⟨h1, h2⟩ := pyLstrip_getLast_of h hc
  unfold pyStrip
  rw [pyRstrip_eq_self h2 hc]
  exact ⟨h1, h2⟩

theorem headingMatch_text_last {s : PyStr} {lev : Nat} {t : PyStr} {c : Char}
    (hlast : s.getLast? = some c) (hc : pyIsSpace c = false)
    (h : headingMatch s = some (lev, t)) :
    ∃ d, t.getLast? = some d ∧ pyIsSpace d = false := by
  simp only [headingMatch] at h
  split at h
  · exact absurd h (by simp)
  · split at h
    case isTrue hlt =>
      simp only [Option.some.injEq, Prod.mk.injEq] at h
      have hdrop : s.drop (min (hashCount s) 6) ≠ [] := by
        apply List.ne_nil_of_length_pos
        rw [List.length_drop]
        omega
      have hdl : (s.drop (min (hashCount s) 6)).getLast? = some c := by
        rw [getLast?_suffix_nonempty (List.drop_suffix _ _) hdrop]
        exact hlast
      obtain ⟨h1, h2⟩ := pyLstrip_getLast_of hdl hc
      exact ⟨c, by rw [← h.2]; exact h2, hc⟩
    case isFalse =>
      split at h
      · simp only [Option.some.injEq, Prod.mk.injEq] at h
        exact ⟨'#', by rw [← h.2]; rfl, by decide⟩
      · exact absurd h (by simp)

theorem pyRstrip_append_eq {a nt : PyStr} {d : Char}
    (h : nt.getLast? = some d) (hd : pyIsSpace d = false) :
    pyRstrip (a ++ nt) = a ++ nt := by
  apply pyRstrip_eq_self (c := d) _ hd
  rw [List.getLast?_append, h]
  rfl

/-! ## Claim theorems and witnesses -/

/-- C7: the claim says `cleanup_markdown` is idempotent under default
options.  The code violates it: on `"## 2\n## 3\n## Hope"` the first
pass refuses to merge `## 2` with the numeric `## 3` and produces
`"## 2\n## 3. Hope"`, but a second pass merges `## 2` with the now
non-numeric `## 3. Hope`, yielding `"## 2. 3. Hope"`, so
`cleanup(cleanup(x)) ≠ cleanup(x)`. -/
theorem c7_idempotence_fails_eval :
    cleanup_markdown (pyStr ("## 2\n## 3\n## Hope")) defaultOptions =
      .ok (pyStr ("## 2\n## 3. Hope")) ∧
    cleanup_markdown (pyStr ("## 2\n## 3. Hope")) defaultOptions =
      .ok (pyStr ("## 2. 3. Hope")) ∧
    pyStr ("## 2. 3. Hope") ≠ pyStr ("## 2\n## 3. Hope") :=
  ⟨by decide, by decide, by decide⟩

/-- C1, counterexample: an options value holding an invalid pattern is
constructed without any validation (the dataclass has none), and the
regex-compilation error is raised while `cleanup_markdown` is
processing, contradicting the claim that it is raised at
construction/validation time and never during processing. -/
theorem c1_counterexample :
    cleanup_markdown (pyStr ("x"))
      { remove_patterns := [Pattern.invalid], auto_remove_domain_headings := false,
        combine_numbered_headings := false, reflow_paragraphs := false } =
      .error () := by decide

/-- C2, counterexample: the input `"\n"` ends with a newline but the
output is empty (the `cleaned and` guard suppresses the trailing
newline), and the input `"a\x0c\x0c"` does not end with `"\n"` yet the
output `"a\n"` does (the form feeds become an empty final line), so the
claimed if-and-only-if fails in both directions. -/
theorem c2_counterexample :
    cleanup_markdown (pyStr ("\n")) defaultOptions = .ok (pyStr ("")) ∧
    cleanup_markdown (pyStr ("a\x0c\x0c")) defaultOptions = .ok (pyStr ("a\n")) :=
  ⟨by decide, by decide⟩

/-- C3, counterexample: with every toggleable stage disabled and no
blank run in the input, the claim says the output equals the input, but
`_ensure_heading_spacing` (which always runs) inserts a blank line after
the heading. -/
theorem c3_counterexample :
    cleanup_markdown (pyStr ("# T\nx")) allTogglesOff = .ok (pyStr ("# T\n\nx")) ∧
    pyStr ("# T\n\nx") ≠ pyStr ("# T\nx") :=
  ⟨by decide, by decide⟩

/-- C4, counterexample: `_remove_pattern_matches` is fence-oblivious, so
with `remove_patterns` matching `Noise` the interior line of the fenced
block is deleted, contradicting the claim that fenced interiors survive
byte-identical for every options value. -/
theorem c4_counterexample :
    cleanup_markdown (pyStr ("```\nNoise\n```"))
      { remove_patterns := [Pattern.valid (fun l => l == pyStr ("Noise"))],
        auto_remove_domain_headings := false, combine_numbered_headings := false,
        reflow_paragraphs := false } = .ok (pyStr ("```\n```")) := by decide

/-- C10, counterexample: a form feed that ends the input is a split
boundary, but nothing replaces it — the output `"a"` contains no newline
at all, so the separator is absent from the output yet not replaced by
a newline as the claim states. -/
theorem c10_counterexample :
    cleanup_markdown (pyStr ("a\x0c")) defaultOptions = .ok (pyStr ("a")) ∧
    '\n' ∉ pyStr ("a") :=
  ⟨by decide, by decide⟩

/-- C9: the blank-line squasher deletes a line exactly when it and its
predecessor in the pre-squash stream are both blank — so every maximal
run of two or more blank lines (leading and trailing runs included)
keeps exactly its first line and a lone blank line is never dropped —
and consequently the final line sequence of the pipeline never contains
two consecutive blank lines. -/
theorem c9_no_adjacent_blanks :
    (∀ ls, squashBlankLines ls = specSquash ls) ∧
    (∀ md opts ls, cleanupMarkdownLines md opts = .ok ls → noTwoAdjacentBlanks ls) := by
  constructor
  · exact squashBlankLines_eq_specSquash
  · intro md opts ls h
    obtain ⟨xs, rfl⟩ := cleanupMarkdownLines_shape md opts ls h
    exact chain'_squashAux xs false

/-- C9, witness: the squasher agreement evaluated on a concrete stream
with a three-blank run, and the no-adjacent-blanks invariant on the
concrete output of the pipeline for `"a\n\n\n\nb"`. -/
theorem c9_witness :
    squashBlankLines [pyStr ("a"), [], [], [], pyStr ("b")] =
      specSquash [pyStr ("a"), [], [], [], pyStr ("b")] ∧
    noTwoAdjacentBlanks [pyStr ("a"), [], pyStr ("b")] :=
  ⟨c9_no_adjacent_blanks.1 _,
   c9_no_adjacent_blanks.2 (pyStr ("a\n\n\n\nb")) defaultOptions _ (by decide)⟩


/-- C1: the claim says an invalid entry of `remove_patterns` raises at
options-construction time and never during `cleanup_markdown`.  The
dataclass performs no validation and `_remove_pattern_matches` compiles
the patterns on every call, so in fact `cleanup_markdown` raises the
compilation error itself, exactly when the input is non-empty and an
invalid pattern is present; with only valid patterns it never raises. -/
theorem c1_compile_error_inside_cleanup :
    ∀ md opts, cleanup_markdown md opts = .error () ↔
      md ≠ [] ∧ Pattern.invalid ∈ opts.remove_patterns :=
  cleanup_markdown_error_iff

/-- C8: with every entry of `remove_patterns` a valid regular
expression, `cleanup_markdown` is total — it returns a string and never
raises, whatever the input. -/
theorem c8_totality :
    ∀ md opts, Pattern.invalid ∉ opts.remove_patterns →
      ∃ out, cleanup_markdown md opts = .ok out := by
  intro md opts h
  rcases hc : cleanup_markdown md opts with e | out
  · rcases e
    exact absurd ((cleanup_markdown_error_iff md opts).mp hc).2 h
  · exact ⟨out, rfl⟩

/-- C8, witness: totality evaluated at a concrete non-ASCII input
without trailing newline and one valid pattern. -/
theorem c8_witness :
    ∃ out, cleanup_markdown (pyStr ("héllo"))
      { remove_patterns := [Pattern.valid (fun l => l == pyStr ("x"))],
        auto_remove_domain_headings := true, combine_numbered_headings := true,
        reflow_paragraphs := true } = .ok out :=
  c8_totality (pyStr ("héllo")) _
    (fun h => Pattern.noConfusion (List.mem_singleton.mp h))


/-- C3 (amended): with `remove_patterns` empty and all three toggles
false, the output line stream preserves the input's non-blank lines
exactly (same lines, same order, byte-identical) and every output line
is either an input line or an inserted empty line — i.e. the output
differs from the input only by blank-line squashing and by the blank
lines the always-on heading-spacing stage inserts (the claim that no
new lines are ever inserted fails). -/
theorem c3_all_toggles_off :
    ∀ md ls, cleanupMarkdownLines md allTogglesOff = .ok ls →
      ls.filter (fun l => !isBlankLine l) =
        (pySplitlines md).filter (fun l => !isBlankLine l) ∧
      ∀ l ∈ ls, l ∈ pySplitlines md ∨ l = [] := by
  intro md ls h
  rw [cleanupMarkdownLines_allTogglesOff] at h
  simp only [Except.ok.injEq] at h
  subst h
  constructor
  · show (squashAux false _).filter _ = _
    rw [squashAux_filter_nonblank, ensureHeadingSpacing_filter_nonblank]
  · intro l hl
    exact mem_ensureHeadingSpacing _ (mem_squashAux _ false hl)

/-- C3, witness: the preservation facts evaluated on `"# T\nx"`, whose
cleaned line stream is `["# T", "", "x"]`. -/
theorem c3_witness :
    ([pyStr ("# T"), [], pyStr ("x")].filter (fun l => !isBlankLine l) =
      (pySplitlines (pyStr ("# T\nx"))).filter (fun l => !isBlankLine l)) ∧
    ∀ l ∈ [pyStr ("# T"), [], pyStr ("x")], l ∈ pySplitlines (pyStr ("# T\nx")) ∨ l = [] :=
  c3_all_toggles_off (pyStr ("# T\nx")) _ (by decide)


/-- C5: the heading merger behaves, step by step, exactly as the claim
describes: whenever the first of two consecutive lines is a
numeric-heading of level `L` and the second a heading of the same level
whose text is not itself numeric, the pair is replaced by the single
heading `level-marker + " " + number + separator + spacer + next_text`
(separator the captured `.`/`)` or `.`, spacer empty iff the next text
is empty or starts with `.`, `)`, `-` or an en-dash) and both lines are
consumed; in every other case the current line is emitted unchanged and
the pass advances by one.  In particular `"## 2\n## Hope"` cleans to
exactly `"## 2. Hope"`. -/
theorem c5_heading_merger :
    (∀ l l' rest m, specMergeStep l l' = some m →
        combineNumberedHeadings (l :: l' :: rest) = m :: combineNumberedHeadings rest) ∧
    (∀ l l' rest, specMergeStep l l' = none →
        combineNumberedHeadings (l :: l' :: rest) =
          l :: combineNumberedHeadings (l' :: rest)) ∧
    cleanup_markdown (pyStr ("## 2\n## Hope")) defaultOptions =
      .ok (pyStr ("## 2. Hope")) := by
  refine ⟨?_, ?_, by decide⟩
  · intro l l' rest m h
    simp only [specMergeStep] at h
    split at h
    · exact absurd h (by simp)
    rename_i lev text h1
    split at h
    · exact absurd h (by simp)
    rename_i num sepOpt h2
    split at h
    · exact absurd h (by simp)
    rename_i lev2 text2 h3
    split at h
    case isFalse => exact absurd h (by simp)
    case isTrue hcond =>
      simp only [Option.some.injEq] at h
      simp only [combineNumberedHeadings, h1, h2, h3]
      rw [if_pos hcond.1]
      rw [if_neg (by simp [hcond.2])]
      have hstrip : ∃ c0, (pyStrip l').getLast? = some c0 ∧ pyIsSpace c0 = false := by
        rcases hg : (pyStrip l').getLast? with _ | c0
        · rw [List.getLast?_eq_none_iff] at hg
          rw [hg] at h3
          have hnone : headingMatch ([] : PyStr) = none := rfl
          rw [hnone] at h3
          exact absurd h3 (by simp)
        · exact ⟨c0, rfl, pyRstrip_getLast_not_space (s := pyLstrip l') hg⟩
      obtain ⟨c0, hg, hc0⟩ := hstrip
      obtain ⟨d, hd, hds⟩ := headingMatch_text_last hg hc0 h3
      obtain ⟨hnt, hntl⟩ := pyStrip_getLast_of hd hds
      congr 1
      rw [← h]
      unfold mergedHeading
      simp only []
      have hassoc : ∀ S P : PyStr,
          List.replicate lev '#' ++ ' ' :: (num ++ S ++ P ++ pyStrip text2) =
            (List.replicate lev '#' ++ [' '] ++ num ++ S ++ P) ++ pyStrip text2 := by
        intro S P
        simp [List.append_assoc]
      rw [hassoc]
      rw [pyRstrip_append_eq hntl hds]
  · intro l l' rest h
    simp only [specMergeStep] at h
    split at h
    case h_1 h1 =>
      simp only [combineNumberedHeadings, h1]
    case h_2 lev text h1 =>
      split at h
      case h_1 h2 =>
        simp only [combineNumberedHeadings, h1, h2]
      case h_2 num sepOpt h2 =>
        split at h
        case h_1 h3 =>
          simp only [combineNumberedHeadings, h1, h2, h3]
        case h_2 lev2 text2 h3 =>
          split at h
          case isTrue => exact absurd h (by simp)
          case isFalse hcond =>
            simp only [combineNumberedHeadings, h1, h2, h3]
            by_cases hl : lev2 = lev
            · rw [if_pos hl]
              have hn : (numericMatch (pyStrip text2)).isSome = true := by
                rcases hh : (numericMatch (pyStrip text2)).isSome with _ | _
                · exact absurd ⟨hl, hh⟩ hcond
                · rfl
              rw [if_pos hn]
            · rw [if_neg hl]

/-- C5, witness: the merge equation applied to the scenario pair
`["## 2", "## Hope"]` and the no-merge equation applied to two plain
headings. -/
theorem c5_witness :
    combineNumberedHeadings [pyStr ("## 2"), pyStr ("## Hope")] = [pyStr ("## 2. Hope")] ∧
    combineNumberedHeadings [pyStr ("# A"), pyStr ("# B")] =
      pyStr ("# A") :: combineNumberedHeadings [pyStr ("# B")] :=
  ⟨c5_heading_merger.1 (pyStr ("## 2")) (pyStr ("## Hope")) [] (pyStr ("## 2. Hope")) (by decide),
   c5_heading_merger.2.1 (pyStr ("# A")) (pyStr ("# B")) [] (by decide)⟩


theorem reflowAux_inCode (mid : List PyStr) :
    ∀ par rest, (∀ l ∈ mid, isFenceLine l = false) →
      reflowAux par true (mid ++ rest) = mid.map pyRstrip ++ reflowAux par true rest := by
  induction mid with
  | nil => intro par rest _; rfl
  | cons m mid' ih =>
    intro par rest hmid
    have hm : isFenceLine m = false := hmid m (List.mem_cons_self m mid')
    unfold isFenceLine at hm
    simp only [List.cons_append, reflowAux, hm, Bool.false_eq_true, if_false,
      eq_self_iff_true, if_true, List.append_eq]
    simp only [List.map_cons, List.cons_append]
    rw [ih par rest (fun l hl => hmid l (List.mem_cons_of_mem m hl))]

/-- C4 (amended): only the paragraph-reflow stage is fence-aware, and
even it does not keep interior lines byte-identical: every line strictly
between a fence opener and the closing fence is emitted by reflow
individually and in order — never buffered, joined, deleted, or
interleaved with insertions — but right-stripped; the other stages
(pattern removal, domain-heading removal, heading merge, heading
spacing, blank squash) treat fenced interiors like any other lines. -/
theorem c4_reflow_passes_fence_interior :
    ∀ f g mid rest par,
      isFenceLine f = true → isFenceLine g = true →
      (∀ l ∈ mid, isFenceLine l = false) →
      reflowAux par false (f :: (mid ++ g :: rest)) =
        flushParagraph par ++
          pyRstrip f :: (mid.map pyRstrip ++ pyRstrip g :: reflowAux [] false rest) := by
  intro f g mid rest par hf hg hmid
  unfold isFenceLine at hf hg
  simp only [reflowAux]
  rw [if_pos hf]
  simp only [Bool.not_false]
  rw [reflowAux_inCode mid [] (g :: rest) hmid]
  simp only [reflowAux]
  rw [if_pos hg]
  simp [flushParagraph]

/-- C4, witness: the reflow fence equation evaluated on the spec's
Scenario D block. -/
theorem c4_witness :
    reflowAux [] false (pyStr ("```python") :: ([pyStr ("print(x)")] ++ pyStr ("```") :: [])) =
      flushParagraph [] ++
        pyRstrip (pyStr ("```python")) ::
          ([pyStr ("print(x)")].map pyRstrip ++
            pyRstrip (pyStr ("```")) :: reflowAux [] false []) :=
  c4_reflow_passes_fence_interior (pyStr ("```python")) (pyStr ("```"))
    [pyStr ("print(x)")] [] [] (by decide) (by decide) (by decide)


theorem pySplitlinesAux_clean (cur s : PyStr) :
    (∀ c ∈ cur, isLineBoundary c = false) →
    ∀ l ∈ pySplitlinesAux cur s, lineBoundaryFree l := by
  induction cur, s using pySplitlinesAux.induct with
  | case1 cur =>
    intro hcur l hl
    simp only [pySplitlinesAux, List.mem_singleton] at hl
    subst hl
    intro ch hch
    exact hcur ch (List.mem_reverse.mp hch)
  | case2 cur c hb =>
    intro hcur l hl
    simp only [pySplitlinesAux, hb, eq_self_iff_true, if_true, List.mem_singleton] at hl
    subst hl
    intro ch hch
    exact hcur ch (List.mem_reverse.mp hch)
  | case3 cur c hb r2 rest2 hrn ih =>
    intro hcur l hl
    simp only [pySplitlinesAux, hb, eq_self_iff_true, if_true] at hl
    rw [if_pos hrn] at hl
    rcases List.mem_cons.mp hl with rfl | hl
    · intro ch hch
      exact hcur ch (List.mem_reverse.mp hch)
    · split at hl
      · exact absurd hl (by simp)
      · exact ih (by simp) l hl
  | case4 cur c hb r2 rest2 hrn ih =>
    intro hcur l hl
    simp only [pySplitlinesAux, hb, eq_self_iff_true, if_true] at hl
    rw [if_neg hrn] at hl
    rcases List.mem_cons.mp hl with rfl | hl
    · intro ch hch
      exact hcur ch (List.mem_reverse.mp hch)
    · exact ih (by simp) l hl
  | case5 cur c rest hb ih =>
    intro hcur l hl
    rw [pySplitlinesAux.eq_def] at hl
    simp only [] at hl
    rw [if_neg hb] at hl
    refine ih ?_ l hl
    intro ch hch
    rcases List.mem_cons.mp hch with rfl | hch
    · simpa using hb
    · exact hcur ch hch

theorem pySplitlines_clean (s : PyStr) : ∀ l ∈ pySplitlines s, lineBoundaryFree l := by
  unfold pySplitlines
  split
  · intro l hl
    exact absurd hl (List.not_mem_nil l)
  · exact pySplitlinesAux_clean [] s (by simp)

theorem mem_removePatternMatchesE {lines : List PyStr} {ps : List Pattern}
    {out : List PyStr} (h : removePatternMatchesE lines ps = .ok out) :
    ∀ x ∈ out, x ∈ lines := by
  unfold removePatternMatchesE at h
  split at h
  · exact absurd h (by simp)
  · split at h
    · simp only [Except.ok.injEq] at h
      subst h
      exact fun x hx => hx
    · simp only [Except.ok.injEq] at h
      subst h
      exact fun x hx => List.mem_of_mem_filter hx

theorem mem_removeRepeatedDomainHeadings {lines : List PyStr} {x : PyStr}
    (h : x ∈ removeRepeatedDomainHeadings lines) : x ∈ lines := by
  simp only [removeRepeatedDomainHeadings] at h
  split at h
  · exact h
  · exact List.mem_of_mem_filter h

theorem numericMatch_parts {t num : PyStr} {sepOpt : Option Char}
    (h : numericMatch t = some (num, sepOpt)) :
    (∀ c ∈ num, c ∈ t) ∧ (∀ c', sepOpt = some c' → c' = '.' ∨ c' = ')') := by
  simp only [numericMatch] at h
  split at h
  · exact absurd h (by simp)
  · split at h
    · simp only [Option.some.injEq, Prod.mk.injEq] at h
      refine ⟨?_, ?_⟩
      · intro c hc
        rw [← h.1] at hc
        exact (List.takeWhile_sublist _).subset hc
      · intro c' hc'
        rw [← h.2] at hc'
        exact absurd hc' (by simp)
    · rename_i c0 hcond0
      split at h
      · rename_i hcond
        simp only [Option.some.injEq, Prod.mk.injEq] at h
        refine ⟨?_, ?_⟩
        · intro c hc
          rw [← h.1] at hc
          exact (List.takeWhile_sublist _).subset hc
        · intro c' hc'
          rw [← h.2] at hc'
          simp only [Option.some.injEq] at hc'
          rw [← hc']
          exact hcond
      · exact absurd h (by simp)
    · exact absurd h (by simp)

theorem headingMatch_text_sub {s : PyStr} {lev : Nat} {t : PyStr}
    (h : headingMatch s = some (lev, t)) : ∀ c ∈ t, c ∈ s ∨ c = '#' := by
  simp only [headingMatch] at h
  split at h
  · exact absurd h (by simp)
  · split at h
    · simp only [Option.some.injEq, Prod.mk.injEq] at h
      intro c hc
      rw [← h.2] at hc
      exact Or.inl (List.drop_subset _ _ (mem_pyLstrip hc))
    · split at h
      · simp only [Option.some.injEq, Prod.mk.injEq] at h
        intro c hc
        rw [← h.2] at hc
        simp only [List.mem_singleton] at hc
        exact Or.inr hc
      · exact absurd h (by simp)

theorem mem_mergedHeading {lev : Nat} {num : PyStr} {sepOpt : Option Char}
    {nt : PyStr} {c : Char} (h : c ∈ mergedHeading lev num sepOpt nt) :
    c ∈ num ∨ c ∈ nt ∨ c = '#' ∨ c = ' ' ∨ c = '.' ∨
      (∃ c', sepOpt = some c' ∧ c = c') := by
  simp only [mergedHeading] at h
  have h' := mem_pyRstrip h
  rcases List.mem_append.mp h' with hr | hr
  · exact Or.inr (Or.inr (Or.inl (List.eq_of_mem_replicate hr)))
  · rcases List.mem_cons.mp hr with rfl | hr
    · exact Or.inr (Or.inr (Or.inr (Or.inl rfl)))
    · rcases List.mem_append.mp hr with hr | hr
      · rcases List.mem_append.mp hr with hr | hr
        · rcases List.mem_append.mp hr with hr | hr
          · exact Or.inl hr
          · rcases hsep : sepOpt with _ | c0
            · rw [hsep] at hr
              simp only [List.mem_singleton] at hr
              exact Or.inr (Or.inr (Or.inr (Or.inr (Or.inl hr))))
            · rw [hsep] at hr
              simp only [List.mem_singleton] at hr
              exact Or.inr (Or.inr (Or.inr (Or.inr (Or.inr ⟨c0, rfl, hr⟩))))
        · split at hr
          · exact absurd hr (by simp)
          · simp only [List.mem_singleton] at hr
            exact Or.inr (Or.inr (Or.inr (Or.inl hr)))
      · exact Or.inr (Or.inl hr)


theorem combineNumberedHeadings_clean (ls : List PyStr) :
    (∀ l ∈ ls, lineBoundaryFree l) →
    ∀ x ∈ combineNumberedHeadings ls, lineBoundaryFree x := by
  induction ls using combineNumberedHeadings.induct with
  | case1 =>
    intro _ x hx
    exact absurd hx (by simp [combineNumberedHeadings])
  | case2 l =>
    intro hcl x hx
    simp only [combineNumberedHeadings, List.mem_singleton] at hx
    subst hx
    exact hcl x (by simp)
  | case3 l l' ls h1 ih =>
    intro hcl x hx
    simp only [combineNumberedHeadings, h1] at hx
    rcases List.mem_cons.mp hx with rfl | hx
    · exact hcl x (by simp)
    · exact ih (fun y hy => hcl y (List.mem_cons_of_mem _ hy)) x hx
  | case4 l l' ls lev text h1 h2 ih =>
    intro hcl x hx
    simp only [combineNumberedHeadings, h1, h2] at hx
    rcases List.mem_cons.mp hx with rfl | hx
    · exact hcl x (by simp)
    · exact ih (fun y hy => hcl y (List.mem_cons_of_mem _ hy)) x hx
  | case5 l l' ls lev text h1 num sepOpt h2 h3 ih =>
    intro hcl x hx
    simp only [combineNumberedHeadings, h1, h2, h3] at hx
    rcases List.mem_cons.mp hx with rfl | hx
    · exact hcl x (by simp)
    · exact ih (fun y hy => hcl y (List.mem_cons_of_mem _ hy)) x hx
  | case6 l l' ls text num sepOpt h2 lev2 text2 h3 nt hnum h1 ih =>
    intro hcl x hx
    simp only [combineNumberedHeadings, h1, h2, h3, eq_self_iff_true, if_true] at hx
    rw [if_pos hnum] at hx
    rcases List.mem_cons.mp hx with rfl | hx
    · exact hcl x (by simp)
    · exact ih (fun y hy => hcl y (List.mem_cons_of_mem _ hy)) x hx
  | case7 l l' ls text num sepOpt h2 lev2 text2 h3 nt hnum h1 ih =>
    intro hcl x hx
    simp only [combineNumberedHeadings, h1, h2, h3, eq_self_iff_true, if_true] at hx
    rw [if_neg hnum] at hx
    have hl : lineBoundaryFree l := hcl l (by simp)
    have hl' : lineBoundaryFree l' := hcl l' (by simp)
    rcases List.mem_cons.mp hx with rfl | hx
    · intro c hc
      rcases mem_mergedHeading hc with hc | hc | rfl | rfl | rfl | ⟨c', hc', rfl⟩
      · have hct := (numericMatch_parts h2).1 c hc
        rcases headingMatch_text_sub h1 c (mem_pyStrip hct) with hcs | rfl
        · exact hl c (mem_pyStrip hcs)
        · decide
      · rcases headingMatch_text_sub h3 c (mem_pyStrip hc) with hcs | rfl
        · exact hl' c (mem_pyStrip hcs)
        · decide
      · decide
      · decide
      · decide
      · rcases (numericMatch_parts h2).2 c hc' with rfl | rfl
        · decide
        · decide
    · exact ih (fun y hy => hcl y (List.mem_cons_of_mem _ (List.mem_cons_of_mem _ hy))) x hx
  | case8 l l' ls lev text h1 num sepOpt h2 lev2 text2 h3 hlev ih =>
    intro hcl x hx
    simp only [combineNumberedHeadings, h1, h2, h3] at hx
    rw [if_neg hlev] at hx
    rcases List.mem_cons.mp hx with rfl | hx
    · exact hcl x (by simp)
    · exact ih (fun y hy => hcl y (List.mem_cons_of_mem _ hy)) x hx

theorem mem_joinSpace {c : Char} {ps : List PyStr} (h : c ∈ joinSpace ps) :
    (∃ p ∈ ps, c ∈ p) ∨ c = ' ' := by
  induction ps with
  | nil => exact absurd h (by simp [joinSpace])
  | cons p ps' ih =>
    cases ps' with
    | nil => exact Or.inl ⟨p, by simp, by simpa [joinSpace] using h⟩
    | cons q qs =>
      simp only [joinSpace] at h
      rcases List.mem_append.mp h with h | h
      · exact Or.inl ⟨p, by simp, h⟩
      · rcases List.mem_cons.mp h with rfl | h
        · exact Or.inr rfl
        · rcases ih h with ⟨p', hp', hc⟩ | h
          · exact Or.inl ⟨p', List.mem_cons_of_mem _ hp', hc⟩
          · exact Or.inr h

theorem flushParagraph_clean {par : List PyStr} {x : PyStr}
    (hpar : ∀ p ∈ par, lineBoundaryFree p) (hx : x ∈ flushParagraph par) :
    lineBoundaryFree x := by
  simp only [flushParagraph] at hx
  split at hx
  · exact absurd hx (by simp)
  · simp only [List.mem_singleton] at hx
    subst hx
    intro c hc
    rcases mem_joinSpace hc with ⟨p, hp, hcp⟩ | rfl
    · exact hpar p hp c hcp
    · decide

theorem reflowAux_clean (ls : List PyStr) :
    ∀ par b, (∀ p ∈ par, lineBoundaryFree p) → (∀ l ∈ ls, lineBoundaryFree l) →
      ∀ x ∈ reflowAux par b ls, lineBoundaryFree x := by
  induction ls with
  | nil =>
    intro par b hpar _ x hx
    exact flushParagraph_clean hpar hx
  | cons rl rest ih =>
    intro par b hpar hls x hx
    have hrl : lineBoundaryFree rl := hls rl (by simp)
    have hrest : ∀ l ∈ rest, lineBoundaryFree l :=
      fun l hl => hls l (List.mem_cons_of_mem _ hl)
    have hline : lineBoundaryFree (pyRstrip rl) := fun c hc => hrl c (mem_pyRstrip hc)
    simp only [reflowAux] at hx
    split at hx
    · rcases List.mem_append.mp hx with hx | hx
      · exact flushParagraph_clean hpar hx
      · rcases List.mem_cons.mp hx with rfl | hx
        · exact hline
        · exact ih [] (!b) (by simp) hrest x hx
    · split at hx
      · rcases List.mem_cons.mp hx with rfl | hx
        · exact hline
        · exact ih par b hpar hrest x hx
      · split at hx
        · rcases List.mem_append.mp hx with hx | hx
          · exact flushParagraph_clean hpar hx
          · rcases List.mem_cons.mp hx with rfl | hx
            · exact hline
            · exact ih [] b (by simp) hrest x hx
        · split at hx
          · rcases List.mem_append.mp hx with hx | hx
            · exact flushParagraph_clean hpar hx
            · rcases List.mem_cons.mp hx with rfl | hx
              · intro c hc
                exact absurd hc (by simp)
              · exact ih [] b (by simp) hrest x hx
          · refine ih (par ++ [pyStrip (pyRstrip rl)]) b ?_ hrest x hx
            intro p hp
            rcases List.mem_append.mp hp with hp | hp
            · exact hpar p hp
            · simp only [List.mem_singleton] at hp
              subst hp
              intro c hc
              exact hrl c (mem_pyRstrip (mem_pyStrip hc))

theorem mem_joinLines {c : Char} {ls : List PyStr} (h : c ∈ joinLines ls) :
    (∃ l ∈ ls, c ∈ l) ∨ c = '\n' := by
  induction ls with
  | nil => exact absurd h (by simp [joinLines])
  | cons p ps' ih =>
    cases ps' with
    | nil => exact Or.inl ⟨p, by simp, by simpa [joinLines] using h⟩
    | cons q qs =>
      simp only [joinLines] at h
      rcases List.mem_append.mp h with h | h
      · exact Or.inl ⟨p, by simp, h⟩
      · rcases List.mem_cons.mp h with rfl | h
        · exact Or.inr rfl
        · rcases ih h with ⟨p', hp', hc⟩ | h
          · exact Or.inl ⟨p', List.mem_cons_of_mem _ hp', hc⟩
          · exact Or.inr h

theorem cleanupMarkdownLines_clean (md : PyStr) (opts : MarkdownCleanupOptions)
    (ls : List PyStr) (h : cleanupMarkdownLines md opts = .ok ls) :
    ∀ l ∈ ls, lineBoundaryFree l := by
  simp only [cleanupMarkdownLines] at h
  split at h
  · exact absurd h (by simp)
  · rename_i lines1 heq
    have h1 : ∀ l ∈ lines1, lineBoundaryFree l := by
      split at heq
      · simp only [Except.ok.injEq] at heq
        subst heq
        exact pySplitlines_clean md
      · intro l hl
        exact pySplitlines_clean md l (mem_removePatternMatchesE heq l hl)
    have h2 : ∀ l ∈ (if opts.auto_remove_domain_headings then
        removeRepeatedDomainHeadings lines1 else lines1), lineBoundaryFree l := by
      intro l hl
      split at hl
      · exact h1 l (mem_removeRepeatedDomainHeadings hl)
      · exact h1 l hl
    have h3 : ∀ l ∈ (if opts.combine_numbered_headings then
        combineNumberedHeadings (if opts.auto_remove_domain_headings then
          removeRepeatedDomainHeadings lines1 else lines1)
        else (if opts.auto_remove_domain_headings then
          removeRepeatedDomainHeadings lines1 else lines1)), lineBoundaryFree l := by
      intro l hl
      split at hl
      · exact combineNumberedHeadings_clean _ h2 l hl
      · exact h2 l hl
    have h4 : ∀ l ∈ (if opts.reflow_paragraphs then
        reflowParagraphs (if opts.combine_numbered_headings then
          combineNumberedHeadings (if opts.auto_remove_domain_headings then
            removeRepeatedDomainHeadings lines1 else lines1)
          else (if opts.auto_remove_domain_headings then
            removeRepeatedDomainHeadings lines1 else lines1))
        else (if opts.combine_numbered_headings then
          combineNumberedHeadings (if opts.auto_remove_domain_headings then
            removeRepeatedDomainHeadings lines1 else lines1)
          else (if opts.auto_remove_domain_headings then
            removeRepeatedDomainHeadings lines1 else lines1))), lineBoundaryFree l := by
      intro l hl
      split at hl
      · exact reflowAux_clean _ [] false (by simp) h3 l hl
      · exact h3 l hl
    simp only [Except.ok.injEq] at h
    subst h
    intro l hl
    rcases mem_ensureHeadingSpacing _ (mem_squashAux _ false hl) with hl' | rfl
    · exact h4 l hl'
    · intro c hc
      exact absurd hc (by simp)


/-- C10 (amended): `cleanup_markdown` splits on every Python universal
line boundary — the lines of `splitlines` contain no boundary character
— and rejoins with `"\n"`, so the only universal line-boundary character
that can appear in any output is `'\n'`; an interior separator becomes a
line break, but a separator ending the input (or one delimiting a
squashed or dropped empty line) is not represented by a newline. -/
theorem c10_universal_line_boundaries :
    (∀ s l c, l ∈ pySplitlines s → c ∈ l → isLineBoundary c = false) ∧
    (∀ md opts out, cleanup_markdown md opts = .ok out →
      ∀ c ∈ out, isLineBoundary c = true → c = '\n') := by
  constructor
  · intro s l c hl hc
    exact pySplitlines_clean s l hl c hc
  · intro md opts out h c hc hb
    simp only [cleanup_markdown] at h
    split at h
    · simp only [Except.ok.injEq] at h
      subst h
      rename_i hemp
      rw [List.isEmpty_iff.mp hemp] at hc
      exact absurd hc (by simp)
    · split at h
      · exact absurd h (by simp)
      · rename_i ls heq
        have hclean := cleanupMarkdownLines_clean md opts ls heq
        split at h
        · simp only [Except.ok.injEq] at h
          subst h
          rcases List.mem_append.mp hc with hc | hc
          · rcases mem_joinLines hc with ⟨l, hl, hcl⟩ | rfl
            · rw [hclean l hl c hcl] at hb
              exact absurd hb (by simp)
            · rfl
          · simp only [List.mem_singleton] at hc
            exact hc
        · simp only [Except.ok.injEq] at h
          subst h
          rcases mem_joinLines hc with ⟨l, hl, hcl⟩ | rfl
          · rw [hclean l hl c hcl] at hb
            exact absurd hb (by simp)
          · rfl

/-- C10, witness: the splitting fact at a concrete line of
`"a\u2028b"`, and the output-characters fact for the input
`"a\u2028# b"`, whose cleaned output is `"a\n# b"`. -/
theorem c10_witness :
    isLineBoundary 'a' = false ∧
    (∀ c ∈ pyStr ("a\n# b"), isLineBoundary c = true → c = '\n') :=
  ⟨c10_universal_line_boundaries.1 (pyStr ("a\u2028b")) (pyStr ("a")) 'a'
      (by decide) (by decide),
   c10_universal_line_boundaries.2 (pyStr ("a\u2028# b")) defaultOptions
      (pyStr ("a\n# b")) (by decide)⟩

theorem suffix_of_append_right {s a b : List Char}
    (h : s <:+ a ++ b) (hl : s.length ≤ b.length) : s <:+ b := by
  induction a with
  | nil => simpa using h
  | cons x a' ih =>
    rw [List.cons_append, List.suffix_cons_iff] at h
    rcases h with h | h
    · have := congrArg List.length h
      simp at this
      omega
    · exact ih h

theorem joinLines_eq_nil {ls : List PyStr} (h : joinLines ls = []) :
    ls = [] ∨ ls = [[]] := by
  match ls with
  | [] => exact Or.inl rfl
  | [l] =>
    simp only [joinLines] at h
    exact Or.inr (by rw [h])
  | l :: l' :: t =>
    exfalso
    simp only [joinLines] at h
    rcases List.append_eq_nil.mp h with ⟨-, h2⟩
    simp at h2

theorem joinLines_eq_single_newline {ls : List PyStr} (h : joinLines ls = ['\n']) :
    ls = [['\n']] ∨ ls = [[], []] := by
  match ls with
  | [] => simp [joinLines] at h
  | [l] =>
    simp only [joinLines] at h
    exact Or.inl (by rw [h])
  | l :: l' :: t =>
    rcases l with _ | ⟨x, xs⟩
    · simp only [joinLines, List.nil_append, List.cons.injEq] at h
      have hJ : joinLines (l' :: t) = [] := h.2
      rcases joinLines_eq_nil hJ with h' | h'
      · exact absurd h' (by simp)
      · right
        rw [h']
    · exfalso
      simp only [joinLines] at h
      have := congrArg List.length h
      simp at this

theorem no_double_newline_join (ls : List PyStr)
    (hclean : ∀ l ∈ ls, lineBoundaryFree l)
    (hchain : noTwoAdjacentBlanks ls) :
    ¬ (['\n', '\n'] <:+ joinLines ls) := by
  induction ls with
  | nil =>
    intro h
    have := h.length_le
    simp [joinLines] at this
  | cons l tail ih =>
    cases tail with
    | nil =>
      intro h
      obtain ⟨t, ht⟩ := h
      have hmem : '\n' ∈ joinLines [l] := by
        rw [← ht]; simp
      have hl : '\n' ∈ l := by simpa [joinLines] using hmem
      have := hclean l (by simp) '\n' hl
      exact absurd this (by decide)
    | cons l' tail' =>
      intro h
      simp only [joinLines] at h
      rcases hJ : joinLines (l' :: tail') with _ | ⟨j, J'⟩
      · rcases joinLines_eq_nil hJ with h' | h'
        · exact absurd h' (by simp)
        · rw [hJ] at h
          obtain ⟨t, ht⟩ := h
          have ht' : (t ++ ['\n']) ++ ['\n'] = l ++ ['\n'] := by
            rw [← ht]; simp
          have hl : t ++ ['\n'] = l := List.append_cancel_right ht'
          have hmem : '\n' ∈ l := by rw [← hl]; simp
          have := hclean l (by simp) '\n' hmem
          exact absurd this (by decide)
      · rw [hJ] at h
        have hs : ['\n', '\n'] <:+ '\n' :: j :: J' := by
          apply suffix_of_append_right h
          simp
        rw [List.suffix_cons_iff] at hs
        rcases hs with hs | hs
        · simp only [List.cons.injEq, true_and] at hs
          have hone : joinLines (l' :: tail') = ['\n'] := by
            rw [hJ, ← hs.1, ← hs.2]
          rcases joinLines_eq_single_newline hone with h' | h'
          · have hl' : l' = ['\n'] := by
              simpa using congrArg (fun xs => List.headD xs []) h'
            have := hclean l' (by simp) '\n' (by rw [hl']; simp)
            exact absurd this (by decide)
          · have h1 : l' = [] ∧ tail' = [[]] := by
              have e1 := congrArg (fun xs => List.headD xs [' ']) h'
              have e2 := congrArg List.tail h'
              simp at e1 e2
              exact ⟨e1, e2⟩
            have hch : noTwoAdjacentBlanks (l' :: tail') := hchain.tail
            rw [h1.1, h1.2] at hch
            unfold noTwoAdjacentBlanks at hch
            rw [List.chain'_cons] at hch
            exact hch.1 ⟨by decide, by decide⟩
        · rw [← hJ] at hs
          have hcht : noTwoAdjacentBlanks (l' :: tail') := hchain.tail
          exact ih (fun y hy => hclean y (List.mem_cons_of_mem _ hy)) hcht hs


/-- C2 (amended): the trailing-newline rule is one-directional, not an
iff.  When the input ends with `"\n"` and the output is non-empty, the
output ends with `"\n"` — and never with two (no output ever has a
`"\n\n"` suffix, so the trailing newline is never duplicated).  The
converse directions fail: newline-only input yields empty output, and
an input ending in a non-`"\n"` line boundary can yield output ending
in `"\n"`. -/
theorem c2_trailing_newline_behavior :
    ∀ md opts out, cleanup_markdown md opts = .ok out →
      (md.getLast? = some '\n' → out ≠ [] → out.getLast? = some '\n') ∧
      ¬ ((pyStr ("\n\n")) <:+ out) := by
  have hp : pyStr ("\n\n") = ['\n', '\n'] := rfl
  intro md opts out h
  simp only [cleanup_markdown] at h
  split at h
  · simp only [Except.ok.injEq] at h
    subst h
    rename_i hemp
    have hmd : md = [] := List.isEmpty_iff.mp hemp
    constructor
    · intro hlast
      rw [hmd] at hlast
      exact absurd hlast (by simp)
    · intro hs
      have := hs.length_le
      rw [hmd, hp] at this
      simp at this
  · split at h
    · exact absurd h (by simp)
    · rename_i ls heq
      have hclean := cleanupMarkdownLines_clean md opts ls heq
      have hchain : noTwoAdjacentBlanks ls := by
        obtain ⟨xs, rfl⟩ := cleanupMarkdownLines_shape md opts ls heq
        exact chain'_squashAux xs false
      have hnd : ¬ (['\n', '\n'] <:+ joinLines ls) :=
        no_double_newline_join ls hclean hchain
      split at h
      · rename_i hcond
        simp only [Except.ok.injEq] at h
        subst h
        constructor
        · intro _ _
          rw [List.getLast?_append]
          rfl
        · intro hs
          rw [hp] at hs
          obtain ⟨t, ht⟩ := hs
          have ht' : (t ++ ['\n']) ++ ['\n'] = joinLines ls ++ ['\n'] := by
            rw [← ht]
            simp
          have hteq : t ++ ['\n'] = joinLines ls := List.append_cancel_right ht'
          have hlast : (joinLines ls).getLast? = some '\n' := by
            rw [← hteq, List.getLast?_append]
            rfl
          simp only [Bool.and_eq_true, decide_eq_true_eq, Bool.not_eq_true',
            decide_eq_false_iff_not] at hcond
          exact hcond.2 hlast
      · rename_i hcond
        simp only [Except.ok.injEq] at h
        subst h
        constructor
        · intro hmd hne
          by_cases h3 : (joinLines ls).getLast? = some '\n'
          · exact h3
          · exfalso
            apply hcond
            have hie : (joinLines ls).isEmpty = false := by
              rcases hie : (joinLines ls).isEmpty with _ | _
              · rfl
              · exact absurd (List.isEmpty_iff.mp hie) hne
            simp [hmd, hie, h3]
        · intro hs
          rw [hp] at hs
          exact hnd hs

/-- C2, witness: the surviving direction applied to the input `"a\n"`,
whose output is `"a\n"`. -/
theorem c2_witness :
    ((pyStr ("a\n")).getLast? = some '\n' → pyStr ("a\n") ≠ [] →
      (pyStr ("a\n")).getLast? = some '\n') ∧
    ¬ ((pyStr ("\n\n")) <:+ pyStr ("a\n")) :=
  c2_trailing_newline_behavior (pyStr ("a\n")) defaultOptions (pyStr ("a\n")) (by decide)
